import Mathlib

/-!
Verification of the github-secrets-sync configuration parser and sync
orchestrator.  The definitions below are a shallow embedding of the
TypeScript sources (src/config.ts, src/github.ts, src/index.ts and the
parseSecret helper documented in docs/security.md): JavaScript strings are
modelled as Lean `String` (lists of characters), the process environment as
a partial map `String → Option String`, thrown exceptions as `Except String`,
and the external `gh` value store as a behaviour function recording which
write calls are issued.
-/

/-! ## JavaScript string primitives -/

/-- The whitespace characters recognised by the model of JavaScript
`String.prototype.trim` and of the regex class `\s`.  The configuration
grammar only ever uses spaces, tabs and line breaks, so the exotic Unicode
space characters accepted by JavaScript are not modelled. -/
def isWsChar (c : Char) : Bool :=
  c == ' ' || c == '\t' || c == '\r' || c == '\n'

/-- JavaScript `line.trim()` on a list of characters. -/
def jsTrim (l : List Char) : List Char :=
  ((l.dropWhile isWsChar).reverse.dropWhile isWsChar).reverse

/-- JavaScript `s.trim()` on a string. -/
def jsTrimStr (s : String) : String :=
  ⟨jsTrim s.toList⟩

/-- JavaScript truthiness of `process.env[k]` (a string is falsy exactly
when it is absent or empty). -/
def jsTruthyStr : Option String → Bool
  | none => false
  | some s => s != ""

/-! ## Name mapping (`parseSecret` from docs/security.md) -/

/-- Embeds the `ParsedSecret` interface: `source` is the read-side name,
`target` the write-side name. -/
structure ParsedSecret where
  source : String
  target : String
  isRenamed : Bool
deriving DecidableEq, Repr

/-- Embeds `parseSecret(value)`: the first `:` with positive index splits
the entry into `source` and `target` (both trimmed); otherwise the whole
entry is used for both sides. -/
def parseSecret (value : String) : ParsedSecret :=
  match value.toList.findIdx? (· == ':') with
  | some i =>
    if 0 < i then
      { source := jsTrimStr ⟨value.toList.take i⟩
        target := jsTrimStr ⟨value.toList.drop (i + 1)⟩
        isRenamed := true }
    else { source := value, target := value, isRenamed := false }
  | none => { source := value, target := value, isRenamed := false }

/-- C3: name-mapping parsing is a total function on strings (it is a Lean
function, hence never fails); it maps "A" to `{source A, target A, not
renamed}`, "A:B" to `{A, B, renamed}`, "A:B:C" to `{A, B:C, renamed}`
(only the first separator splits); and every entry with no separator, or
with the separator at position 0, parses to `{entry, entry, not renamed}`. -/
theorem parseSecret_first_separator_total :
    parseSecret "A" = ⟨"A", "A", false⟩ ∧
    parseSecret "A:B" = ⟨"A", "B", true⟩ ∧
    parseSecret "A:B:C" = ⟨"A", "B:C", true⟩ ∧
    ∀ v : String,
      (v.toList.findIdx? (· == ':') = none ∨ v.toList.findIdx? (· == ':') = some 0) →
      parseSecret v = ⟨v, v, false⟩ := by
  refine ⟨by decide, by decide, by decide, ?_⟩
  intro v h
  have h' : List.findIdx? (fun c => c == ':') v.data = none ∨
      List.findIdx? (fun c => c == ':') v.data = some 0 := h
  unfold parseSecret
  rcases h' with h' | h' <;> simp [h']

/-- Witness for `parseSecret_first_separator_total`: the no-separator rule
applied at the concrete entry ":X" (separator at position 0). -/
theorem parseSecret_first_separator_total_witness :
    parseSecret ":X" = ⟨":X", ":X", false⟩ :=
  parseSecret_first_separator_total.2.2.2 ":X" (Or.inr (by decide))

/-- C4 counterexample: on the entry "A:A" the code sets `isRenamed := true`
even though the read-side and write-side names coincide, so the claimed
equivalence `isRenamed = true ↔ source ≠ target` fails at "A:A". -/
theorem parseSecret_renamed_counterexample :
    parseSecret "A:A" = ⟨"A", "A", true⟩ ∧
    ¬ ((parseSecret "A:A").isRenamed = true ↔
        (parseSecret "A:A").source ≠ (parseSecret "A:A").target) := by
  constructor
  · decide
  · decide

/-- C4 amended: `isRenamed` is true exactly when the entry contains the
separator at a position greater than 0 (that is, exactly when a split
occurred), regardless of whether the two sides end up equal. -/
theorem parseSecret_renamed_iff_split :
    ∀ v : String, (parseSecret v).isRenamed = true ↔
      ∃ i, v.toList.findIdx? (· == ':') = some i ∧ 0 < i := by
  intro v
  unfold parseSecret
  cases h : v.toList.findIdx? (· == ':') with
  | none => simp
  | some i =>
    by_cases hi : 0 < i
    · simp [hi]
    · simp [hi]

/-! ## Data model of the sync orchestrator (src/types.ts) -/

/-- The `type` discriminator of a sync result: "secret" or "var". -/
inductive SyncKind where
  | secret
  | var
deriving DecidableEq, Repr

/-- Embeds the `SyncTarget` interface: a repository plus the optional
per-target `secrets` and `vars` whitelist overrides. -/
structure SyncTarget where
  repository : String
  secrets : Option (List String) := none
  vars : Option (List String) := none
deriving DecidableEq, Repr

/-- Embeds the `SyncConfig` interface produced by `loadConfig`. -/
structure SyncConfig where
  source_repository : Option String := none
  secrets : List String
  vars : Option (List String) := none
  targets : List SyncTarget
deriving DecidableEq, Repr

/-- Embeds the `SecretSyncResult` interface (one Outcome). -/
structure SecretSyncResult where
  secret : String
  target : String
  success : Bool
  error : Option String := none
  type : SyncKind
deriving DecidableEq, Repr

/-- Embeds the `SyncResult` interface (the SyncReport). -/
structure SyncResult where
  timestamp : String
  total : Nat
  successful : Nat
  failed : Nat
  details : List SecretSyncResult
deriving DecidableEq, Repr

/-- Embeds the `CliOptions` interface. -/
structure CliOptions where
  dryRun : Bool
  verbose : Bool := false
  config : Option String := none
deriving DecidableEq, Repr

/-- The process environment: `Env k = none` models an unset variable,
`Env k = some ""` a variable set to the empty string. -/
def Env : Type := String → Option String

/-- One write request issued to the external `gh` value store
(`gh secret set` or `gh variable set`). -/
structure WriteCall where
  kind : SyncKind
  repo : String
  name : String
  value : String
deriving DecidableEq, Repr

/-- Behaviour of the external value store for one write: `none` means the
`gh` invocation succeeds, `some msg` means it throws with message `msg`.
The behaviour is a fixed function of (kind, repo, name, value), matching
the statelessness of the orchestrator. -/
def Store : Type := SyncKind → String → String → String → Option String

/-! ## src/github.ts -/

/-- The message of the error thrown by `getSecretValue`. -/
def secretNotFoundMsg (secretName : String) : String :=
  "Secret value not found for " ++ secretName ++ ". " ++
    "Secrets must be available as environment variables. " ++
    "In GitHub Actions, ensure secrets are passed as inputs or environment variables."

/-- The message of the error thrown by `getVarValue`. -/
def varNotFoundMsg (varName : String) : String :=
  "Var value not found for " ++ varName ++ ". " ++
    "Vars must be available as environment variables."

/-- Embeds `getSecretValue`: returns the environment value when it is
truthy (set and non-empty), otherwise throws. -/
def getSecretValue (env : Env) (secretName : String) : Except String String :=
  match env secretName with
  | some v => if v = "" then .error (secretNotFoundMsg secretName) else .ok v
  | none => .error (secretNotFoundMsg secretName)

/-- Embeds `getVarValue`: same lookup as `getSecretValue` with the var
error message. -/
def getVarValue (env : Env) (varName : String) : Except String String :=
  match env varName with
  | some v => if v = "" then .error (varNotFoundMsg varName) else .ok v
  | none => .error (varNotFoundMsg varName)

/-- Embeds `syncSecret`: in dry-run mode a success result is returned
without touching the store; otherwise `setSecret` is invoked (recorded as
a `WriteCall`) and a thrown error is caught into the result. -/
def syncSecret (store : Store) (secretName targetRepo secretValue : String)
    (dryRun : Bool) : SecretSyncResult × List WriteCall :=
  if dryRun then
    ({ secret := secretName, target := targetRepo, success := true, type := .secret }, [])
  else
    match store .secret targetRepo secretName secretValue with
    | none =>
      ({ secret := secretName, target := targetRepo, success := true, type := .secret },
        [⟨.secret, targetRepo, secretName, secretValue⟩])
    | some msg =>
      ({ secret := secretName, target := targetRepo, success := false,
          error := some msg, type := .secret },
        [⟨.secret, targetRepo, secretName, secretValue⟩])

/-- Embeds `syncVariable`, the var counterpart of `syncSecret`. -/
def syncVariable (store : Store) (varName targetRepo varValue : String)
    (dryRun : Bool) : SecretSyncResult × List WriteCall :=
  if dryRun then
    ({ secret := varName, target := targetRepo, success := true, type := .var }, [])
  else
    match store .var targetRepo varName varValue with
    | none =>
      ({ secret := varName, target := targetRepo, success := true, type := .var },
        [⟨.var, targetRepo, varName, varValue⟩])
    | some msg =>
      ({ secret := varName, target := targetRepo, success := false,
          error := some msg, type := .var },
        [⟨.var, targetRepo, varName, varValue⟩])

/-! ## src/index.ts: runSync -/

/-- The effective secret list of a target:
`target.secrets || config.secrets`. -/
def effSecrets (cfg : SyncConfig) (t : SyncTarget) : List String :=
  t.secrets.getD cfg.secrets

/-- The effective var list of a target:
`target.vars || config.vars || []`. -/
def effVars (cfg : SyncConfig) (t : SyncTarget) : List String :=
  t.vars.getD (cfg.vars.getD [])

/-- One iteration of the inner secrets loop of `runSync`: look the value
up (outside any try/catch, so a thrown error propagates) and sync it. -/
def processSecret (env : Env) (store : Store) (dry : Bool) (repo n : String) :
    Except String (SecretSyncResult × List WriteCall) :=
  match getSecretValue env n with
  | .error e => .error e
  | .ok v => .ok (syncSecret store n repo v dry)

/-- One iteration of the inner vars loop of `runSync`. -/
def processVar (env : Env) (store : Store) (dry : Bool) (repo n : String) :
    Except String (SecretSyncResult × List WriteCall) :=
  match getVarValue env n with
  | .error e => .error e
  | .ok v => .ok (syncVariable store n repo v dry)

/-- Sequences one of the inner loops of `runSync` over a name list,
accumulating results and store calls; the first thrown error aborts. -/
def processList (f : String → Except String (SecretSyncResult × List WriteCall)) :
    List String → Except String (List SecretSyncResult × List WriteCall)
  | [] => .ok ([], [])
  | n :: rest =>
    match f n with
    | .error e => .error e
    | .ok (r, c) =>
      match processList f rest with
      | .error e => .error e
      | .ok (rs, cs) => .ok (r :: rs, c ++ cs)

/-- The body of the per-target loop of `runSync`: secrets strictly before
vars, each in list order. -/
def processTarget (env : Env) (store : Store) (dry : Bool) (cfg : SyncConfig)
    (t : SyncTarget) : Except String (List SecretSyncResult × List WriteCall) :=
  match processList (processSecret env store dry t.repository) (effSecrets cfg t) with
  | .error e => .error e
  | .ok (rs, cs) =>
    match processList (processVar env store dry t.repository) (effVars cfg t) with
    | .error e => .error e
    | .ok (rv, cv) => .ok (rs ++ rv, cs ++ cv)

/-- The outer target loop of `runSync`, in configuration order. -/
def processTargets (env : Env) (store : Store) (dry : Bool) (cfg : SyncConfig) :
    List SyncTarget → Except String (List SecretSyncResult × List WriteCall)
  | [] => .ok ([], [])
  | t :: more =>
    match processTarget env store dry cfg t with
    | .error e => .error e
    | .ok (a, b) =>
      match processTargets env store dry cfg more with
      | .error e => .error e
      | .ok (c, d) => .ok (a ++ c, b ++ d)

/-- The summary computed at the end of `runSync`. -/
def mkReport (timestamp : String) (details : List SecretSyncResult) : SyncResult :=
  { timestamp
    total := details.length
    successful := (details.filter (fun r => r.success)).length
    failed := (details.filter (fun r => !r.success)).length
    details }

/-- Embeds `runSync` (src/index.ts): require the `GH_SYNC_PAT` credential,
then process every target; the second component of the result is the list
of write calls the external value store received. -/
def runSync (env : Env) (store : Store) (opts : CliOptions) (cfg : SyncConfig)
    (timestamp : String) : Except String (SyncResult × List WriteCall) :=
  if jsTruthyStr (env "GH_SYNC_PAT") then
    match processTargets env store opts.dryRun cfg cfg.targets with
    | .error e => .error e
    | .ok (details, calls) => .ok (mkReport timestamp details, calls)
  else .error "GH_SYNC_PAT environment variable is required"

/-- The externally observable outcome of `main` (src/index.ts): whether
the README status artifact was rewritten, and the process exit code. -/
structure MainOutcome where
  readmeUpdated : Bool
  exitCode : Nat
deriving DecidableEq, Repr

/-- Embeds the tail of `main`: a thrown error is caught (exit 1, no README
update); on a completed run the README is updated exactly under
`!options.dryRun && result.failed === 0`, and the exit code is 1 when
`result.failed > 0`. -/
def mainRun (env : Env) (store : Store) (opts : CliOptions) (cfg : SyncConfig)
    (timestamp : String) : MainOutcome :=
  match runSync env store opts cfg timestamp with
  | .ok (res, _) =>
    { readmeUpdated := !opts.dryRun && res.failed == 0
      exitCode := if res.failed > 0 then 1 else 0 }
  | .error _ => { readmeUpdated := false, exitCode := 1 }

/-! ## Denotation of a completed run -/

/-- The outcome and store calls of one secret item when its value lookup
succeeds. -/
def itemSecret (env : Env) (store : Store) (dry : Bool) (repo n : String) :
    SecretSyncResult × List WriteCall :=
  syncSecret store n repo ((env n).getD "") dry

/-- The outcome and store calls of one var item when its value lookup
succeeds. -/
def itemVar (env : Env) (store : Store) (dry : Bool) (repo n : String) :
    SecretSyncResult × List WriteCall :=
  syncVariable store n repo ((env n).getD "") dry

/-- The ordered outcome block a completed run records for one target:
its effective secrets in list order, then its effective vars in list
order. -/
def targetDetails (env : Env) (store : Store) (dry : Bool) (cfg : SyncConfig)
    (t : SyncTarget) : List SecretSyncResult :=
  (effSecrets cfg t).map (fun n => (itemSecret env store dry t.repository n).1) ++
    (effVars cfg t).map (fun n => (itemVar env store dry t.repository n).1)

/-- The ordered store-call block a completed run issues for one target. -/
def targetCalls (env : Env) (store : Store) (dry : Bool) (cfg : SyncConfig)
    (t : SyncTarget) : List WriteCall :=
  ((effSecrets cfg t).flatMap fun n => (itemSecret env store dry t.repository n).2) ++
    ((effVars cfg t).flatMap fun n => (itemVar env store dry t.repository n).2)

/-- Every effective work item of the configuration finds a truthy value in
the environment. -/
def allPresent (env : Env) (cfg : SyncConfig) (ts : List SyncTarget) : Prop :=
  ∀ t ∈ ts, ∀ n ∈ effSecrets cfg t ++ effVars cfg t, jsTruthyStr (env n) = true

/-! ## Characterisation of a run -/

/-- When the value lookup succeeds, one secrets-loop iteration produces
exactly the denoted item. -/
theorem processSecret_ok (env : Env) (store : Store) (dry : Bool) (repo n : String)
    (h : jsTruthyStr (env n) = true) :
    processSecret env store dry repo n = .ok (itemSecret env store dry repo n) := by
  unfold processSecret getSecretValue itemSecret
  cases henv : env n with
  | none => rw [henv] at h; simp [jsTruthyStr] at h
  | some v =>
    rw [henv] at h
    have hv : v ≠ "" := by simpa [jsTruthyStr] using h
    simp [hv]

/-- When the value lookup succeeds, one vars-loop iteration produces
exactly the denoted item. -/
theorem processVar_ok (env : Env) (store : Store) (dry : Bool) (repo n : String)
    (h : jsTruthyStr (env n) = true) :
    processVar env store dry repo n = .ok (itemVar env store dry repo n) := by
  unfold processVar getVarValue itemVar
  cases henv : env n with
  | none => rw [henv] at h; simp [jsTruthyStr] at h
  | some v =>
    rw [henv] at h
    have hv : v ≠ "" := by simpa [jsTruthyStr] using h
    simp [hv]

/-- A secrets-loop iteration only completes when the value was truthy. -/
theorem processSecret_ok_truthy (env : Env) (store : Store) (dry : Bool)
    (repo n : String) (x : SecretSyncResult × List WriteCall)
    (h : processSecret env store dry repo n = .ok x) : jsTruthyStr (env n) = true := by
  unfold processSecret getSecretValue at h
  cases henv : env n with
  | none => rw [henv] at h; simp at h
  | some v =>
    rw [henv] at h
    by_cases hv : v = ""
    · simp [hv] at h
    · simp [jsTruthyStr, henv, hv]

/-- A vars-loop iteration only completes when the value was truthy. -/
theorem processVar_ok_truthy (env : Env) (store : Store) (dry : Bool)
    (repo n : String) (x : SecretSyncResult × List WriteCall)
    (h : processVar env store dry repo n = .ok x) : jsTruthyStr (env n) = true := by
  unfold processVar getVarValue at h
  cases henv : env n with
  | none => rw [henv] at h; simp at h
  | some v =>
    rw [henv] at h
    by_cases hv : v = ""
    · simp [hv] at h
    · simp [jsTruthyStr, henv, hv]

/-- `processList` on an all-successful item function returns the mapped
outcomes and the concatenated store calls, in list order. -/
theorem processList_ok
    (f : String → Except String (SecretSyncResult × List WriteCall))
    (g : String → SecretSyncResult × List WriteCall) :
    ∀ ns : List String, (∀ n ∈ ns, f n = .ok (g n)) →
      processList f ns =
        .ok (ns.map (fun n => (g n).1), ns.flatMap (fun n => (g n).2)) := by
  intro ns
  induction ns with
  | nil => intro _; rfl
  | cons n rest ih =>
    intro h
    have h1 := h n (List.mem_cons_self _ _)
    have h2 := ih (fun m hm => h m (List.mem_cons_of_mem _ hm))
    simp [processList, h1, h2]

/-- If `processList` completed, every item function call completed. -/
theorem processList_ok_mem
    (f : String → Except String (SecretSyncResult × List WriteCall)) :
    ∀ (ns : List String) (x : List SecretSyncResult × List WriteCall),
      processList f ns = .ok x → ∀ n ∈ ns, ∃ r, f n = .ok r := by
  intro ns
  induction ns with
  | nil => intro x _ n hn; cases hn
  | cons m rest ih =>
    intro x h n hn
    unfold processList at h
    cases hf : f m with
    | error e => rw [hf] at h; simp at h
    | ok r =>
      rw [hf] at h
      cases hrest : processList f rest with
      | error e => rw [hrest] at h; simp at h
      | ok y =>
        rcases List.mem_cons.mp hn with rfl | hn
        · exact ⟨r, hf⟩
        · exact ih y hrest n hn

/-- When every effective item of a target has a truthy value, the target
loop body produces exactly its denoted outcome and call blocks. -/
theorem processTarget_ok (env : Env) (store : Store) (dry : Bool) (cfg : SyncConfig)
    (t : SyncTarget)
    (h : ∀ n ∈ effSecrets cfg t ++ effVars cfg t, jsTruthyStr (env n) = true) :
    processTarget env store dry cfg t =
      .ok (targetDetails env store dry cfg t, targetCalls env store dry cfg t) := by
  have hs : ∀ n ∈ effSecrets cfg t,
      processSecret env store dry t.repository n = .ok (itemSecret env store dry t.repository n) :=
    fun n hn => processSecret_ok env store dry t.repository n
      (h n (List.mem_append_left _ hn))
  have hv : ∀ n ∈ effVars cfg t,
      processVar env store dry t.repository n = .ok (itemVar env store dry t.repository n) :=
    fun n hn => processVar_ok env store dry t.repository n
      (h n (List.mem_append_right _ hn))
  unfold processTarget
  rw [processList_ok _ _ _ hs, processList_ok _ _ _ hv]
  simp [targetDetails, targetCalls]

/-- If the target loop body completed, every effective item of the target
had a truthy value. -/
theorem processTarget_ok_truthy (env : Env) (store : Store) (dry : Bool)
    (cfg : SyncConfig) (t : SyncTarget) (x : List SecretSyncResult × List WriteCall)
    (h : processTarget env store dry cfg t = .ok x) :
    ∀ n ∈ effSecrets cfg t ++ effVars cfg t, jsTruthyStr (env n) = true := by
  unfold processTarget at h
  cases hs : processList (processSecret env store dry t.repository) (effSecrets cfg t) with
  | error e => rw [hs] at h; simp at h
  | ok y =>
    rw [hs] at h
    cases hvv : processList (processVar env store dry t.repository) (effVars cfg t) with
    | error e => rw [hvv] at h; simp at h
    | ok z =>
      intro n hn
      rcases List.mem_append.mp hn with hn | hn
      · obtain ⟨r, hr⟩ := processList_ok_mem _ _ _ hs n hn
        exact processSecret_ok_truthy env store dry t.repository n r hr
      · obtain ⟨r, hr⟩ := processList_ok_mem _ _ _ hvv n hn
        exact processVar_ok_truthy env store dry t.repository n r hr

/-- When every effective item has a truthy value, the outer loop produces
the target-major concatenation of the per-target blocks. -/
theorem processTargets_ok (env : Env) (store : Store) (dry : Bool) (cfg : SyncConfig) :
    ∀ ts : List SyncTarget, allPresent env cfg ts →
      processTargets env store dry cfg ts =
        .ok (ts.flatMap (targetDetails env store dry cfg),
             ts.flatMap (targetCalls env store dry cfg)) := by
  intro ts
  induction ts with
  | nil => intro _; rfl
  | cons t more ih =>
    intro h
    have h1 := processTarget_ok env store dry cfg t (h t (List.mem_cons_self _ _))
    have h2 := ih (fun u hu => h u (List.mem_cons_of_mem _ hu))
    simp [processTargets, h1, h2]

/-- If the outer loop completed, every effective item of every target had
a truthy value. -/
theorem processTargets_ok_truthy (env : Env) (store : Store) (dry : Bool)
    (cfg : SyncConfig) :
    ∀ (ts : List SyncTarget) (x : List SecretSyncResult × List WriteCall),
      processTargets env store dry cfg ts = .ok x → allPresent env cfg ts := by
  intro ts
  induction ts with
  | nil => intro x _ t ht; cases ht
  | cons t more ih =>
    intro x h u hu
    unfold processTargets at h
    cases ht : processTarget env store dry cfg t with
    | error e => rw [ht] at h; simp at h
    | ok y =>
      rw [ht] at h
      cases hm : processTargets env store dry cfg more with
      | error e => rw [hm] at h; simp at h
      | ok z =>
        rcases List.mem_cons.mp hu with rfl | hu
        · exact processTarget_ok_truthy env store dry cfg u y ht
        · exact ih z hm u hu

/-- Full characterisation of `runSync`: it completes exactly when the
credential is present and every effective work item has a truthy value,
and in that case the report and call list are the denoted target-major
blocks. -/
theorem runSync_ok_iff (env : Env) (store : Store) (opts : CliOptions)
    (cfg : SyncConfig) (timestamp : String) (x : SyncResult × List WriteCall) :
    runSync env store opts cfg timestamp = .ok x ↔
      (jsTruthyStr (env "GH_SYNC_PAT") = true ∧ allPresent env cfg cfg.targets ∧
        x = (mkReport timestamp
              (cfg.targets.flatMap (targetDetails env store opts.dryRun cfg)),
             cfg.targets.flatMap (targetCalls env store opts.dryRun cfg))) := by
  constructor
  · intro h
    unfold runSync at h
    by_cases htok : jsTruthyStr (env "GH_SYNC_PAT") = true
    · rw [if_pos htok] at h
      cases hp : processTargets env store opts.dryRun cfg cfg.targets with
      | error e => rw [hp] at h; simp at h
      | ok y =>
        have hall : allPresent env cfg cfg.targets :=
          processTargets_ok_truthy env store opts.dryRun cfg cfg.targets y hp
        have hy := processTargets_ok env store opts.dryRun cfg cfg.targets hall
        rw [hp] at hy h
        refine ⟨htok, hall, ?_⟩
        obtain ⟨⟩ := hy
        simpa using h.symm
    · rw [if_neg htok] at h
      simp at h
  · rintro ⟨htok, hall, rfl⟩
    unfold runSync
    rw [if_pos htok, processTargets_ok env store opts.dryRun cfg cfg.targets hall]

/-! ## Auxiliary facts about dry runs and item blocks -/

/-- A list flat-mapped through a constantly-empty function is empty. -/
theorem flatMap_const_nil {α β : Type} (l : List α) :
    (l.flatMap fun _ => ([] : List β)) = [] := by
  induction l with
  | nil => rfl
  | cons a l ih => simp [ih]

/-- In dry-run mode `syncSecret` succeeds without any store call. -/
theorem syncSecret_dry (store : Store) (n repo v : String) :
    syncSecret store n repo v true =
      ({ secret := n, target := repo, success := true, type := .secret }, []) := rfl

/-- In dry-run mode `syncVariable` succeeds without any store call. -/
theorem syncVariable_dry (store : Store) (n repo v : String) :
    syncVariable store n repo v true =
      ({ secret := n, target := repo, success := true, type := .var }, []) := rfl

/-- A dry run issues no store calls for any target. -/
theorem targetCalls_dry (env : Env) (store : Store) (cfg : SyncConfig)
    (t : SyncTarget) : targetCalls env store true cfg t = [] := by
  simp [targetCalls, itemSecret, itemVar, syncSecret_dry, syncVariable_dry,
    flatMap_const_nil]

/-- Every outcome of a dry run is a success. -/
theorem targetDetails_dry_success (env : Env) (store : Store) (cfg : SyncConfig)
    (t : SyncTarget) : ∀ r ∈ targetDetails env store true cfg t, r.success = true := by
  intro r hr
  simp [targetDetails] at hr
  rcases hr with ⟨n, _, rfl⟩ | ⟨n, _, rfl⟩ <;>
    simp [itemSecret, itemVar, syncSecret_dry, syncVariable_dry]

/-! ## Concrete fixtures -/

/-- A value store on which every write succeeds. -/
def storeOk : Store := fun _ _ _ _ => none

/-- Environment for the missing-value scenario: the credential and B are
set, A is not. -/
def envC1 : Env := fun n =>
  if n = "GH_SYNC_PAT" then some "tok"
  else if n = "B" then some "bval"
  else none

/-- Configuration for the missing-value scenario. -/
def cfgC1 : SyncConfig :=
  { secrets := ["A", "B"], targets := [{ repository := "duyet/r" }] }

/-- Environment for the end-to-end ordering scenario: credential, A and B
all set. -/
def envC2 : Env := fun n =>
  if n = "GH_SYNC_PAT" then some "tok"
  else if n = "A" then some "av"
  else if n = "B" then some "bv"
  else none

/-- Configuration for the end-to-end ordering scenario: global secrets
[A, B], target T1 overriding secrets to [A], target T2 with no override. -/
def cfgC2 : SyncConfig :=
  { secrets := ["A", "B"]
    targets := [{ repository := "T1", secrets := some ["A"] }, { repository := "T2" }] }

/-! ## C1: a missing value aborts the run -/

/-- C1 counterexample: with secrets [A, B], the value for A absent and the
value for B present, the run does not record a failed Outcome for A and
continue — it aborts with the thrown `getSecretValue` error, so item B is
never attempted and no SyncReport exists. -/
theorem runSync_missing_value_counterexample :
    runSync envC1 storeOk { dryRun := false } cfgC1 "t0" =
      .error (secretNotFoundMsg "A") := by
  rfl

/-- C1 amended: a work item whose read-side name has no truthy value is not
a local failure: even with the credential present, the run produces no
SyncReport at all (the `getSecretValue` exception escapes `runSync`). -/
theorem runSync_missing_value_aborts (env : Env) (store : Store) (opts : CliOptions)
    (cfg : SyncConfig) (timestamp : String)
    (_htok : jsTruthyStr (env "GH_SYNC_PAT") = true)
    (hmiss : ∃ t ∈ cfg.targets, ∃ n ∈ effSecrets cfg t ++ effVars cfg t,
      jsTruthyStr (env n) = false) :
    ∀ x, runSync env store opts cfg timestamp ≠ .ok x := by
  intro x h
  rw [runSync_ok_iff] at h
  obtain ⟨_, hall, _⟩ := h
  obtain ⟨t, ht, n, hn, hfalse⟩ := hmiss
  rw [hall t ht n hn] at hfalse
  cases hfalse

/-- Witness for `runSync_missing_value_aborts` on the concrete
missing-value scenario. -/
theorem runSync_missing_value_aborts_witness :
    runSync envC1 storeOk { dryRun := false } cfgC1 "t0" ≠ .ok (mkReport "t0" [], []) :=
  runSync_missing_value_aborts envC1 storeOk { dryRun := false } cfgC1 "t0"
    (by decide)
    ⟨{ repository := "duyet/r" }, by decide, "A", by decide, by decide⟩
    (mkReport "t0" [], [])

/-! ## C2: report ordering -/

/-- C2: in any completed run the outcomes are target-major (targets in
configuration order), secrets strictly before vars within a target, list
order within each kind; and the concrete scenario with global secrets
[A, B], T1 overriding to [A] and T2 with no override yields exactly
[(T1, A, secret), (T2, A, secret), (T2, B, secret)] in that order. -/
theorem runSync_report_order :
    (∀ (env : Env) (store : Store) (opts : CliOptions) (cfg : SyncConfig)
        (timestamp : String) (res : SyncResult) (calls : List WriteCall),
      runSync env store opts cfg timestamp = .ok (res, calls) →
      res.details = cfg.targets.flatMap (targetDetails env store opts.dryRun cfg)) ∧
    runSync envC2 storeOk { dryRun := false } cfgC2 "t0" =
      .ok (mkReport "t0"
            [ { secret := "A", target := "T1", success := true, type := .secret },
              { secret := "A", target := "T2", success := true, type := .secret },
              { secret := "B", target := "T2", success := true, type := .secret } ],
          [ ⟨.secret, "T1", "A", "av"⟩, ⟨.secret, "T2", "A", "av"⟩,
            ⟨.secret, "T2", "B", "bv"⟩ ]) := by
  constructor
  · intro env store opts cfg timestamp res calls h
    rw [runSync_ok_iff] at h
    obtain ⟨-, -, hx⟩ := h
    have : res = mkReport timestamp
        (cfg.targets.flatMap (targetDetails env store opts.dryRun cfg)) :=
      congrArg Prod.fst hx
    simp [this, mkReport]
  · rfl

/-- Witness for `runSync_report_order`: its ordering statement applied to
the completed concrete scenario run. -/
theorem runSync_report_order_witness :
    (mkReport "t0"
        [ { secret := "A", target := "T1", success := true, type := .secret },
          { secret := "A", target := "T2", success := true, type := .secret },
          { secret := "B", target := "T2", success := true, type := .secret } ]).details =
      cfgC2.targets.flatMap (targetDetails envC2 storeOk false cfgC2) :=
  runSync_report_order.1 envC2 storeOk { dryRun := false } cfgC2 "t0" _ _
    runSync_report_order.2

/-! ## C6: dry runs leave the value store untouched -/

/-- C6: for any configuration with exactly 2 targets carrying no
per-target overrides, 3 global secrets, no global vars, and values present
for every secret, a dry run completes with exactly 6 Outcomes, all
successful, while the value store receives zero write calls. -/
theorem runSync_dry_run_frame (env : Env) (store : Store) (cfg : SyncConfig)
    (opts : CliOptions) (timestamp : String)
    (hdry : opts.dryRun = true)
    (htok : jsTruthyStr (env "GH_SYNC_PAT") = true)
    (htargets : cfg.targets.length = 2)
    (hnoover : ∀ t ∈ cfg.targets, t.secrets = none ∧ t.vars = none)
    (hsecrets : cfg.secrets.length = 3)
    (hvars : cfg.vars.getD [] = [])
    (henv : ∀ n ∈ cfg.secrets, jsTruthyStr (env n) = true) :
    ∃ res, runSync env store opts cfg timestamp = .ok (res, []) ∧
      res.total = 6 ∧ res.successful = 6 ∧ res.failed = 0 ∧
      res.details.length = 6 ∧ ∀ r ∈ res.details, r.success = true := by
  have hall : allPresent env cfg cfg.targets := by
    intro t ht n hn
    obtain ⟨h1, h2⟩ := hnoover t ht
    simp [effSecrets, effVars, h1, h2, hvars] at hn
    exact henv n hn
  have hcalls : cfg.targets.flatMap (targetCalls env store opts.dryRun cfg) = [] := by
    rw [hdry]
    simp [targetCalls_dry, flatMap_const_nil]
  have hrun : runSync env store opts cfg timestamp =
      .ok (mkReport timestamp
            (cfg.targets.flatMap (targetDetails env store opts.dryRun cfg)), []) := by
    rw [runSync_ok_iff]
    exact ⟨htok, hall, by rw [hcalls]⟩
  have hsucc : ∀ r ∈ cfg.targets.flatMap (targetDetails env store opts.dryRun cfg),
      r.success = true := by
    rw [hdry]
    intro r hr
    rw [List.mem_flatMap] at hr
    obtain ⟨t, _, hr⟩ := hr
    exact targetDetails_dry_success env store cfg t r hr
  have hlen : (cfg.targets.flatMap (targetDetails env store opts.dryRun cfg)).length = 6 := by
    obtain ⟨t1, t2, hts⟩ := List.length_eq_two.mp htargets
    have l1 := hnoover t1 (by rw [hts]; exact List.mem_cons_self _ _)
    have l2 := hnoover t2 (by rw [hts]; simp)
    rw [hts]
    simp [targetDetails, effSecrets, effVars, l1.1, l1.2, l2.1, l2.2, hvars, hsecrets]
  have hfilterT : (cfg.targets.flatMap (targetDetails env store opts.dryRun cfg)).filter
      (fun r => r.success) = cfg.targets.flatMap (targetDetails env store opts.dryRun cfg) :=
    List.filter_eq_self.mpr (fun a ha => by simpa using hsucc a ha)
  have hfilterF : (cfg.targets.flatMap (targetDetails env store opts.dryRun cfg)).filter
      (fun r => !r.success) = [] := by
    rw [List.filter_eq_nil_iff]
    intro a ha
    simp [hsucc a ha]
  refine ⟨_, hrun, ?_, ?_, ?_, hlen, hsucc⟩
  · simpa [mkReport] using hlen
  · simpa [mkReport, hfilterT] using hlen
  · simp [mkReport, hfilterF]

/-- Environment for the dry-run scenario. -/
def envC6 : Env := fun n =>
  if n = "GH_SYNC_PAT" then some "tok"
  else if n = "A" then some "av"
  else if n = "B" then some "bv"
  else if n = "C" then some "cv"
  else none

/-- Configuration for the dry-run scenario: 2 targets, 3 global secrets,
no overrides. -/
def cfgC6 : SyncConfig :=
  { secrets := ["A", "B", "C"]
    targets := [{ repository := "T1" }, { repository := "T2" }] }

/-- Witness for `runSync_dry_run_frame` on the concrete 2-target,
3-secret configuration. -/
theorem runSync_dry_run_frame_witness :
    ∃ res, runSync envC6 storeOk { dryRun := true } cfgC6 "t0" = .ok (res, []) ∧
      res.total = 6 ∧ res.successful = 6 ∧ res.failed = 0 ∧
      res.details.length = 6 ∧ ∀ r ∈ res.details, r.success = true :=
  runSync_dry_run_frame envC6 storeOk cfgC6 { dryRun := true } "t0"
    rfl (by decide) (by decide) (by decide) (by decide) (by decide) (by decide)

/-! ## C9: permuting targets only permutes the report -/

/-- C9: when a run completes, running the same configuration with its
target list permuted also completes; each target contributes the same
outcome block, so the permuted report is exactly the correspondingly
permuted sequence of per-target blocks, with identical counts. -/
theorem runSync_target_perm (env : Env) (store : Store) (opts : CliOptions)
    (cfg : SyncConfig) (ts' : List SyncTarget) (timestamp : String)
    (res : SyncResult) (calls : List WriteCall)
    (h : runSync env store opts cfg timestamp = .ok (res, calls))
    (hperm : cfg.targets.Perm ts') :
    ∃ res' calls',
      runSync env store opts { cfg with targets := ts' } timestamp = .ok (res', calls') ∧
      res.details = cfg.targets.flatMap (targetDetails env store opts.dryRun cfg) ∧
      res'.details = ts'.flatMap (targetDetails env store opts.dryRun cfg) ∧
      res'.details.Perm res.details ∧
      res'.total = res.total ∧ res'.successful = res.successful ∧
      res'.failed = res.failed := by
  rw [runSync_ok_iff] at h
  obtain ⟨htok, hall, hx⟩ := h
  have hres : res = mkReport timestamp
      (cfg.targets.flatMap (targetDetails env store opts.dryRun cfg)) :=
    congrArg Prod.fst hx
  have hall' : allPresent env { cfg with targets := ts' } ts' := by
    intro t ht n hn
    exact hall t (hperm.mem_iff.mpr ht) n hn
  have hrun' : runSync env store opts { cfg with targets := ts' } timestamp =
      .ok (mkReport timestamp (ts'.flatMap (targetDetails env store opts.dryRun cfg)),
           ts'.flatMap (targetCalls env store opts.dryRun cfg)) :=
    (runSync_ok_iff env store opts { cfg with targets := ts' } timestamp _).mpr
      ⟨htok, hall', rfl⟩
  have hpermDet : (ts'.flatMap (targetDetails env store opts.dryRun cfg)).Perm
      (cfg.targets.flatMap (targetDetails env store opts.dryRun cfg)) :=
    (hperm.flatMap_right _).symm
  refine ⟨_, _, hrun', by simp [hres, mkReport], by simp [mkReport], ?_, ?_, ?_, ?_⟩
  · simpa [hres, mkReport] using hpermDet
  · simp [hres, mkReport, hpermDet.length_eq]
  · simp [hres, mkReport, (hpermDet.filter _).length_eq]
  · simp [hres, mkReport, (hpermDet.filter _).length_eq]

/-- Witness for `runSync_target_perm`: swapping the two targets of the
concrete ordering scenario. -/
theorem runSync_target_perm_witness :
    ∃ res' calls',
      runSync envC2 storeOk { dryRun := false }
        { cfgC2 with targets := [{ repository := "T2" }, { repository := "T1", secrets := some ["A"] }] }
        "t0" = .ok (res', calls') ∧
      (mkReport "t0"
        [ { secret := "A", target := "T1", success := true, type := .secret },
          { secret := "A", target := "T2", success := true, type := .secret },
          { secret := "B", target := "T2", success := true, type := .secret } ]).details =
        cfgC2.targets.flatMap (targetDetails envC2 storeOk false cfgC2) ∧
      res'.details = [{ repository := "T2" }, ({ repository := "T1", secrets := some ["A"] } : SyncTarget)].flatMap
        (targetDetails envC2 storeOk false cfgC2) ∧
      res'.details.Perm (mkReport "t0"
        [ { secret := "A", target := "T1", success := true, type := .secret },
          { secret := "A", target := "T2", success := true, type := .secret },
          { secret := "B", target := "T2", success := true, type := .secret } ]).details ∧
      res'.total = 3 ∧ res'.successful = 3 ∧ res'.failed = 0 :=
  runSync_target_perm envC2 storeOk { dryRun := false } cfgC2
    [{ repository := "T2" }, { repository := "T1", secrets := some ["A"] }] "t0"
    _ _ (by rfl) (by decide)

/-! ## C7: README update gating -/

/-- C7: the persisted README status table is rewritten exactly when the
run completed, the dry-run flag is off, and no Outcome failed; any dry run
and any run with a failure (or an aborted run) leaves it unchanged. -/
theorem mainRun_readme_iff (env : Env) (store : Store) (opts : CliOptions)
    (cfg : SyncConfig) (timestamp : String) :
    (mainRun env store opts cfg timestamp).readmeUpdated = true ↔
      (opts.dryRun = false ∧ ∃ res calls,
        runSync env store opts cfg timestamp = .ok (res, calls) ∧ res.failed = 0) := by
  unfold mainRun
  cases h : runSync env store opts cfg timestamp with
  | error e => simp [h]
  | ok p =>
    obtain ⟨res, calls⟩ := p
    simp only [h, Bool.and_eq_true, Bool.not_eq_true', beq_iff_eq]
    constructor
    · rintro ⟨h1, h2⟩
      exact ⟨h1, res, calls, rfl, h2⟩
    · rintro ⟨h1, res', calls', heq, h2⟩
      obtain ⟨rfl, rfl⟩ : res = res' ∧ calls = calls' := by
        have := heq
        injection this with this
        exact ⟨congrArg Prod.fst this, congrArg Prod.snd this⟩
      exact ⟨h1, h2⟩

/-- Witness for `mainRun_readme_iff`: on the completed, fully successful
live concrete scenario the README is updated. -/
theorem mainRun_readme_iff_witness :
    (mainRun envC2 storeOk { dryRun := false } cfgC2 "t0").readmeUpdated = true :=
  (mainRun_readme_iff envC2 storeOk { dryRun := false } cfgC2 "t0").mpr
    ⟨rfl, mkReport "t0"
        [ { secret := "A", target := "T1", success := true, type := .secret },
          { secret := "A", target := "T2", success := true, type := .secret },
          { secret := "B", target := "T2", success := true, type := .secret } ],
      [ ⟨.secret, "T1", "A", "av"⟩, ⟨.secret, "T2", "A", "av"⟩,
        ⟨.secret, "T2", "B", "bv"⟩ ], by rfl, by rfl⟩

/-! ## C10: empty environment values are treated as absent -/

/-- C10: at the value-source interface an environment variable set to the
empty string behaves exactly like an unset one: `getSecretValue` and
`getVarValue` throw their not-found error precisely when the value is
unset or empty, and every successful lookup returns the non-empty stored
value. -/
theorem getValue_empty_as_absent :
    ∀ (env : Env) (n : String),
      ((getSecretValue env n = .error (secretNotFoundMsg n)) ↔
        (env n = none ∨ env n = some "")) ∧
      ((getVarValue env n = .error (varNotFoundMsg n)) ↔
        (env n = none ∨ env n = some "")) ∧
      (∀ v, getSecretValue env n = .ok v → env n = some v ∧ v ≠ "") ∧
      (∀ v, getVarValue env n = .ok v → env n = some v ∧ v ≠ "") := by
  intro env n
  unfold getSecretValue getVarValue
  cases h : env n with
  | none => simp
  | some v =>
    by_cases hv : v = "" <;> simp [hv]

/-- Witness for `getValue_empty_as_absent`: a variable set to the empty
string yields the not-found error. -/
theorem getValue_empty_as_absent_witness :
    getSecretValue (fun k => if k = "E" then some "" else none) "E" =
      .error (secretNotFoundMsg "E") :=
  (getValue_empty_as_absent (fun k => if k = "E" then some "" else none) "E").1.mpr
    (Or.inr (by simp))

/-! ## The restricted YAML parser (src/config.ts) -/

/-- A parsed JavaScript value of the configuration tree: a string scalar,
an array, or an object with insertion-ordered unique keys. -/
inductive YVal where
  | str : String → YVal
  | arr : List YVal → YVal
  | obj : List (String × YVal) → YVal
deriving Repr

/-- JavaScript object property lookup on insertion-ordered fields. -/
def lookupF (fields : List (String × YVal)) (k : String) : Option YVal :=
  match fields with
  | [] => none
  | (k', v) :: rest => if k' = k then some v else lookupF rest k

/-- JavaScript object property assignment: replace in place or append. -/
def setF (fields : List (String × YVal)) (k : String) (v : YVal) :
    List (String × YVal) :=
  match fields with
  | [] => [(k, v)]
  | (k', v') :: rest => if k' = k then (k', v) :: rest else (k', v') :: setF rest k v

/-- `obj[key] = v` on a context value.  On an array this models the
JavaScript assignment of a non-index property, which is invisible to the
later array reads of the parser and validator, as a no-op. -/
def setKeyV (k : String) (v : YVal) : YVal → YVal
  | .obj fs => .obj (setF fs k v)
  | x => x

/-- `arr.push(v)` on a context value (only reached under the parser's
`Array.isArray` guard). -/
def pushArrV (v : YVal) : YVal → YVal
  | .arr items => .arr (items ++ [v])
  | x => x

/-- One step of the path from the configuration root to the container a
stack entry references. -/
inductive PStep where
  | field : String → PStep
  | idx : Nat → PStep
deriving Repr, DecidableEq

/-- Reads the value at a path (the reference a stack entry holds). -/
def getAtV : List PStep → YVal → Option YVal
  | [], v => some v
  | .field k :: rest, v =>
    match v with
    | .obj fs =>
      match lookupF fs k with
      | some w => getAtV rest w
      | none => none
    | _ => none
  | .idx i :: rest, v =>
    match v with
    | .arr items =>
      match items.get? i with
      | some w => getAtV rest w
      | none => none
    | _ => none

/-- Applies a mutation at the value a path references. -/
def modifyAtV : List PStep → (YVal → YVal) → YVal → YVal
  | [], f, v => f v
  | .field k :: rest, f, v =>
    match v with
    | .obj fs => .obj (fs.map fun kv => if kv.1 = k then (kv.1, modifyAtV rest f kv.2) else kv)
    | x => x
  | .idx i :: rest, f, v =>
    match v with
    | .arr items => .arr (items.mapIdx fun j x => if j = i then modifyAtV rest f x else x)
    | x => x

/-- One entry of the parser's context stack: the path of the container it
references (the JavaScript code stores the reference itself), the
indentation of the line that opened it, and whether it is an array. -/
structure PItem where
  path : List PStep
  indent : Nat
  isArray : Bool
deriving Repr, DecidableEq

/-- Parser state: the configuration object built so far and the context
stack (head is the top of the stack). -/
structure PState where
  root : YVal
  stack : List PItem

/-- The stack-popping loop at the head of each parser iteration: pop while
the top's indentation is at least the current one, stopping early on the
two same-indentation special cases. -/
def popTo : List PItem → Nat → Bool → List PItem
  | [], _, _ => []
  | top :: rest, indent, isListItem =>
    if top.indent ≥ indent then
      if top.indent = indent ∧ isListItem = true then rest
      else if top.indent = indent ∧ top.isArray = false then top :: rest
      else popTo rest indent isListItem
    else top :: rest

/-- `content.split("\n")` on a character list (keeps empty segments). -/
def splitNl : List Char → List (List Char)
  | [] => [[]]
  | c :: rest =>
    match splitNl rest with
    | [] => [[c]]
    | h :: t => if c = '\n' then [] :: h :: t else (c :: h) :: t

/-- The parser's look-ahead: the first following line that is non-empty
after trimming and is not a comment. -/
def findNext : List (List Char) → Option (List Char)
  | [] => none
  | l :: rest =>
    let t := jsTrim l
    if t = [] then findNext rest
    else if t.head? = some '#' then findNext rest
    else some l

/-- Index of the first non-whitespace character, `line.search(/\S/)`
(only used on lines that have one). -/
def firstNonWs (l : List Char) : Nat :=
  (l.findIdx? (fun c => !isWsChar c)).getD 0

/-- One iteration of the parser's line loop, with `rest` the lines after
the current one (used only for look-ahead). -/
def parseStep (st : PState) (line : List Char) (rest : List (List Char)) : PState :=
  let trimmed := jsTrim line
  if trimmed = [] then st
  else if trimmed.head? = some '#' then st
  else
    let indent := firstNonWs line
    let isListItem : Bool := trimmed.head? == some '-'
    let stack := popTo st.stack indent isListItem
    let ctxPath := (stack.head?.map (fun it => it.path)).getD []
    let ctxIsArr : Bool :=
      match getAtV ctxPath st.root with
      | some (.arr _) => true
      | _ => false
    if isListItem then
      let itemContent := jsTrim (trimmed.drop 1)
      if itemContent.contains ':' = false then
        if ctxIsArr then
          { root := modifyAtV ctxPath (pushArrV (.str ⟨itemContent⟩)) st.root, stack }
        else { root := st.root, stack }
      else
        let i := (itemContent.findIdx? (· == ':')).getD 0
        let keyChars := itemContent.take i
        let value := jsTrim (itemContent.drop (i + 1))
        let newFields : List (String × YVal) :=
          if keyChars = [] then [] else [(⟨jsTrim keyChars⟩, .str ⟨value⟩)]
        if ctxIsArr then
          let len : Nat :=
            match getAtV ctxPath st.root with
            | some (.arr items) => items.length
            | _ => 0
          { root := modifyAtV ctxPath (pushArrV (.obj newFields)) st.root
            stack := ⟨ctxPath ++ [.idx len], indent, false⟩ :: stack }
        else { root := st.root, stack }
    else
      match trimmed.findIdx? (· == ':') with
      | some i =>
        if 0 < i then
          let key : String := ⟨jsTrim (trimmed.take i)⟩
          let value := jsTrim (trimmed.drop (i + 1))
          let next := findNext rest
          let isParentOfArray : Bool :=
            match next with
            | some nl => (jsTrim nl).head? == some '-'
            | none => false
          let hasIndentedContent : Bool :=
            match next with
            | some nl => indent < firstNonWs nl
            | none => false
          if value = [] ∨ isParentOfArray = true ∨ hasIndentedContent = true then
            if isParentOfArray then
              { root := modifyAtV ctxPath (setKeyV key (.arr [])) st.root
                stack := ⟨ctxPath ++ [.field key], indent, true⟩ :: stack }
            else
              { root := modifyAtV ctxPath (setKeyV key (.obj [])) st.root
                stack := ⟨ctxPath ++ [.field key], indent, false⟩ :: stack }
          else
            { root := modifyAtV ctxPath (setKeyV key (.str ⟨value⟩)) st.root, stack }
        else { root := st.root, stack }
      | none => { root := st.root, stack }

/-- The parser's line loop. -/
def parseAll : PState → List (List Char) → PState
  | st, [] => st
  | st, l :: rest => parseAll (parseStep st l rest) rest

/-- The structural part of `parseYaml`: build the raw configuration
object.  It is a total function: no document makes it fail. -/
def parseDocRoot (content : String) : YVal :=
  (parseAll ⟨.obj [], []⟩ (splitNl content.toList)).root

/-! ## Validation (validateConfig in src/config.ts) -/

/-- Message of the error thrown when repository auto-detection fails. -/
def errDetect : String :=
  "Could not detect repository. Set source_repository in sync-config.yaml or run in GitHub Actions."

/-- Message of the `MissingField("secrets")` error. -/
def errSecrets : String := "Missing required field: secrets (must have at least one)"

/-- Message of the `MissingField("targets")` error. -/
def errTargets : String := "Missing required field: targets (must have at least one)"

/-- Message of the per-target missing-repository error. -/
def errRepo : String := "Each target must have a \x27repository\x27 field"

/-- Message modelling the TypeError raised when `for..of` iterates a
non-iterable `targets` value. -/
def errNotIterable : String := "config.targets is not iterable"

/-- JavaScript truthiness of a possibly-absent configuration value: only
`undefined` and the empty string are falsy here. -/
def jsTruthyV : Option YVal → Bool
  | none => false
  | some (.str s) => s != ""
  | some (.arr _) => true
  | some (.obj _) => true

/-- JavaScript `value.length === 0`: strings and arrays expose their
length, objects yield `undefined` (which is not 0). -/
def jsLenZero : YVal → Bool
  | .str s => s.length == 0
  | .arr l => l.length == 0
  | .obj _ => false

/-- `jsLenZero` lifted to a possibly-absent value (only consulted after a
truthiness check, so the absent case is irrelevant). -/
def svLenZero : Option YVal → Bool
  | some v => jsLenZero v
  | none => false

/-- Property lookup on the configuration root. -/
def lookupRoot (root : YVal) (k : String) : Option YVal :=
  match root with
  | .obj fs => lookupF fs k
  | _ => none

/-- Property assignment on the configuration root. -/
def setRootField (root : YVal) (k : String) (v : YVal) : YVal :=
  setKeyV k v root

/-- The per-target check of the validation loop: `!target.repository`
throws; a non-object element has no `repository` property. -/
def checkTargetElem : YVal → Bool
  | .obj fs => jsTruthyV (lookupF fs "repository")
  | _ => false

/-- Embeds `validateConfig`: auto-fill `source_repository` (the detection
collaborator result is the `detect` parameter; `none` models a detection
failure, which throws), then check `secrets`, then `targets`, then every
target's `repository`, in this order — the first failing rule throws. -/
def validateY (detect : Option String) (root : YVal) : Except String YVal :=
  let srcStep : Except String YVal :=
    if jsTruthyV (lookupRoot root "source_repository") then .ok root
    else
      match detect with
      | some r => .ok (setRootField root "source_repository" (.str r))
      | none => .error errDetect
  match srcStep with
  | .error e => .error e
  | .ok root1 =>
    let sv := lookupRoot root1 "secrets"
    if !jsTruthyV sv || svLenZero sv then .error errSecrets
    else
      let tv := lookupRoot root1 "targets"
      if !jsTruthyV tv || svLenZero tv then .error errTargets
      else
        match tv with
        | some (.arr l) => if l.all checkTargetElem then .ok root1 else .error errRepo
        | some (.str _) => .error errRepo
        | some (.obj _) => .error errNotIterable
        | none => .error errTargets

/-- Embeds `parseYaml` (src/config.ts): structural parse, then
validation; this is the whole of config loading apart from file I/O. -/
def parseYaml (detect : Option String) (content : String) : Except String YVal :=
  validateY detect (parseDocRoot content)

/-! ## C5: the secrets rule fires first -/

/-- Assigning one property does not disturb lookups of another. -/
theorem lookupF_setF_ne (fs : List (String × YVal)) (k k' : String) (v : YVal)
    (h : k ≠ k') : lookupF (setF fs k v) k' = lookupF fs k' := by
  induction fs with
  | nil => simp [setF, lookupF, h]
  | cons kv rest ih =>
    obtain ⟨a, b⟩ := kv
    by_cases hak : a = k
    · subst hak
      simp [setF, lookupF, h]
    · by_cases hak' : a = k'
      · subst hak'
        simp [setF, lookupF, hak]
      · simp [setF, lookupF, hak, hak', ih]

/-- On any root whose `secrets` property is absent or an empty array,
validation throws `MissingField("secrets")` as soon as source detection
succeeds, whatever the rest of the root holds. -/
theorem validateY_missing_secrets (detect : Option String) (root : YVal)
    (hsrc : jsTruthyV (lookupRoot root "source_repository") = true ∨ detect.isSome = true)
    (hsec : lookupRoot root "secrets" = none ∨
            lookupRoot root "secrets" = some (.arr [])) :
    validateY detect root = .error errSecrets := by
  unfold validateY
  by_cases h1 : jsTruthyV (lookupRoot root "source_repository") = true
  · rw [if_pos h1]
    rcases hsec with h | h <;> simp [h, jsTruthyV, svLenZero, jsLenZero]
  · rw [if_neg h1]
    rcases hdet : detect with _ | r
    · rcases hsrc with h | h
      · exact absurd h h1
      · rw [hdet] at h
        simp at h
    · have hsec1 : lookupRoot (setRootField root "source_repository" (.str r)) "secrets" =
          lookupRoot root "secrets" := by
        cases root with
        | obj fs => exact lookupF_setF_ne fs _ _ _ (by decide)
        | str s => rfl
        | arr l => rfl
      rcases hsec with h | h <;>
        simp [hsec1, h, jsTruthyV, svLenZero, jsLenZero]

/-- C5: a configuration document whose parsed `secrets` list is absent or
empty fails validation with `MissingField("secrets")` regardless of the
`vars` or `targets` content — the secrets rule fires before the targets
rule and the per-target repository rule (only repository auto-detection,
rule 1, precedes it). -/
theorem parseYaml_missing_secrets (content : String) (detect : Option String)
    (hsrc : jsTruthyV (lookupRoot (parseDocRoot content) "source_repository") = true ∨
      detect.isSome = true)
    (hsec : lookupRoot (parseDocRoot content) "secrets" = none ∨
            lookupRoot (parseDocRoot content) "secrets" = some (.arr [])) :
    parseYaml detect content = .error errSecrets :=
  validateY_missing_secrets detect (parseDocRoot content) hsrc hsec

/-- Witness for `parseYaml_missing_secrets`: a document with vars and a
well-formed target but no `secrets` key fails with the secrets error, not
the targets or repository error. -/
theorem parseYaml_missing_secrets_witness :
    parseYaml (some "duyet/src") "vars:\n  - V\ntargets:\n  - repository: duyet/x" =
      .error errSecrets :=
  parseYaml_missing_secrets "vars:\n  - V\ntargets:\n  - repository: duyet/x"
    (some "duyet/src") (Or.inr rfl) (Or.inl rfl)

/-! ## C8: colon-less lines are ignored, not parse failures -/

/-- A document containing the key line "badline" with no colon. -/
def docBad : String :=
  "source_repository: duyet/src\nbadline\nsecrets:\n  - A\ntargets:\n  - repository: duyet/r"

/-- The same document with the colon-less line removed. -/
def docGood : String :=
  "source_repository: duyet/src\nsecrets:\n  - A\ntargets:\n  - repository: duyet/r"

/-- C8 counterexample: a document with a non-blank, non-comment,
non-list-item, colon-less line parses and validates successfully — the run
does not abort; the offending line is silently dropped, so the result
equals that of the document without the line. -/
theorem parseYaml_no_colon_counterexample :
    parseYaml none docBad =
      .ok (.obj [("source_repository", .str "duyet/src"),
                 ("secrets", .arr [.str "A"]),
                 ("targets", .arr [.obj [("repository", .str "duyet/r")]])]) ∧
    parseYaml none docBad = parseYaml none docGood :=
  ⟨rfl, rfl⟩

/-- C8 amended: a non-blank, non-comment, non-list-item line with no colon
is silently ignored by the parser — it contributes nothing to the parsed
configuration object and never causes a failure (the structural parse is a
total function; only the validation of the result can abort the run). -/
theorem parseStep_no_colon_ignored (st : PState) (line : List Char)
    (rest : List (List Char))
    (h1 : jsTrim line ≠ [])
    (h2 : (jsTrim line).head? ≠ some '#')
    (h3 : (jsTrim line).head? ≠ some '-')
    (h4 : (jsTrim line).findIdx? (· == ':') = none) :
    (parseStep st line rest).root = st.root := by
  unfold parseStep
  rw [if_neg h1, if_neg h2]
  have hb : ((jsTrim line).head? == some '-') = false := by
    simp [h3]
  simp only [hb, h4, Bool.false_eq_true, if_false]

/-- Witness for `parseStep_no_colon_ignored` on the concrete line
"badline" in the initial parser state. -/
theorem parseStep_no_colon_ignored_witness :
    (parseStep ⟨.obj [], []⟩ "badline".toList []).root = YVal.obj [] :=
  parseStep_no_colon_ignored ⟨.obj [], []⟩ "badline".toList []
    (by decide) (by decide) (by decide) (by decide)
